import Mathlib

/-!
# Zone rate matrix model of the dhamaka-v2 vendor onboarding flow

Shallow embedding of the zone selection state, the zone-code grammar, the
zone-to-zone rate matrix with its validation and normalization, the basic
charge input handler, and the submission control flow of the Add Vendor page.

Each definition is translated from the corresponding source file; definitions
for operations whose implementation file is not part of the provided sources
are modelled from the specification and say so in their doc comment.
-/

namespace Dhamaka

/-! ## Zone catalog and selection (ZoneSelectorPage) -/

/-- Zone catalog from ZoneSelectorPage (ZONE_REGIONS): six regions, each with
its list of zone codes. -/
def ZONE_REGIONS : List (String × List String) :=
  [("North", ["N1", "N2", "N3", "N4", "N5", "N6"]),
   ("South", ["S1", "S2", "S3", "S4", "S5", "S6"]),
   ("East", ["E1", "E2", "E3", "E4"]),
   ("West", ["W1", "W2", "W3", "W4"]),
   ("North-East", ["NE1", "NE2", "NE3", "NE4"]),
   ("Central", ["C1", "C2", "C3", "C4"])]

/-- All 28 valid zone codes, flattened from the region catalog. -/
def zoneCatalog : List String := ZONE_REGIONS.foldr (fun r acc => r.2 ++ acc) []

/-- Maximum number of selectable zones (MAX_ZONES in ZoneSelectorPage). -/
def MAX_ZONES : Nat := 28

/-- Shallow embedding of handleZoneToggle from ZoneSelectorPage: deselect a
selected code, block (and raise the limit warning) when adding at the maximum,
otherwise append the code. Returns the new selection and whether the
limit-reached warning was raised by this toggle. -/
def handleZoneToggle (prev : List String) (zoneCode : String) : List String × Bool :=
  if prev.contains zoneCode then
    (prev.filter (fun zone => zone != zoneCode), false)
  else if MAX_ZONES ≤ prev.length then
    (prev, true)
  else
    (prev ++ [zoneCode], false)

/-- Apply a sequence of toggle operations, tracking the selection. -/
def toggleSeq (init : List String) (ops : List String) : List String :=
  ops.foldl (fun sel code => (handleZoneToggle sel code).1) init

/-! ## Zone-code grammar (validZonePattern in the backend documents) -/

/-- The six alternatives of the region alternation in validZonePattern. -/
def patternHeads : List String := ["N", "S", "E", "W", "NE", "C"]

/-- The digits matched by the character class of validZonePattern. -/
def patternDigits : List Char := ['1', '2', '3', '4', '5', '6']

/-- Shallow embedding of the anchored regex validZonePattern from the backend
documents: a string matches iff it is one of the six region alternatives
followed by exactly one digit 1-6 (regex alternation with backtracking and
anchors is existential over the alternatives). -/
def validZonePattern (s : String) : Bool :=
  patternHeads.any (fun p => patternDigits.any (fun d => s == p.push d))

/-! ## Basic charge input handler (SimpleChargeField / SimpleField) -/

/-- Digits of a numeric literal read as a natural number. -/
def digitsToNat (ds : List Char) : Nat :=
  ds.foldl (fun acc c => acc * 10 + (c.toNat - 48)) 0

/-- Split a character list into its leading run of decimal digits and the rest. -/
def takeDigits (cs : List Char) : List Char × List Char :=
  (cs.takeWhile Char.isDigit, cs.dropWhile Char.isDigit)

/-- Model of the JavaScript parseFloat builtin over exact rationals: skip
leading whitespace, read an optional sign, integer digits, an optional
fraction, and an optional exponent; the result is NaN (none) exactly when no
digit was read before the exponent. The Infinity literal is not modelled (it
has no rational value), and binary floating point is replaced by exact
rational arithmetic. -/
def parseFloatQ (s : String) : Option ℚ :=
  let cs := s.toList.dropWhile (fun c => c == ' ' || c == '\t' || c == '\n' || c == '\r')
  let signAndRest : ℚ × List Char :=
    match cs with
    | '-' :: rest => (-1, rest)
    | '+' :: rest => (1, rest)
    | _ => (1, cs)
  let sign := signAndRest.1
  let afterSign := signAndRest.2
  let intPart := takeDigits afterSign
  let fracPart : List Char × List Char :=
    match intPart.2 with
    | '.' :: rest => takeDigits rest
    | _ => ([], intPart.2)
  if intPart.1.isEmpty && fracPart.1.isEmpty then
    none
  else
    let mant : ℚ := (digitsToNat intPart.1 : ℚ) +
      (digitsToNat fracPart.1 : ℚ) / ((10 : ℚ) ^ fracPart.1.length)
    let exp : ℤ :=
      match fracPart.2 with
      | 'e' :: '-' :: rest => expDigits rest true
      | 'e' :: '+' :: rest => expDigits rest false
      | 'e' :: rest => expDigits rest false
      | 'E' :: '-' :: rest => expDigits rest true
      | 'E' :: '+' :: rest => expDigits rest false
      | 'E' :: rest => expDigits rest false
      | _ => 0
    some (sign * mant * (10 : ℚ) ^ exp)
where
  /-- Exponent digits; an exponent marker with no digits is not part of the
  parsed prefix and contributes exponent zero. -/
  expDigits (rest : List Char) (neg : Bool) : ℤ :=
    let ds := (takeDigits rest).1
    if ds.isEmpty then 0
    else if neg then -(digitsToNat ds : ℤ) else (digitsToNat ds : ℤ)

/-- Shallow embedding of handleChange in SimpleChargeField (ChargesSection)
and SimpleField (BasicChargesGrid): the empty string stores 0, a string
parseFloat cannot parse leaves the stored value unchanged, any other string
stores its parsed value. -/
def handleChange (val : String) (current : ℚ) : ℚ :=
  if val = "" then 0
  else
    match parseFloatQ val with
    | none => current
    | some num => num

/-! ## Theorems for claims about the selection, the grammar and the handler -/

theorem toggle_step_length_le (sel : List String) (code : String)
    (h : sel.length ≤ MAX_ZONES) :
    ((handleZoneToggle sel code).1).length ≤ MAX_ZONES := by
  unfold handleZoneToggle
  split
  · exact le_trans (List.length_filter_le _ _) h
  · split
    · exact h
    · simp only [List.length_append, List.length_singleton]
      omega

theorem toggleSeq_length_le (init : List String) (ops : List String)
    (h : init.length ≤ MAX_ZONES) :
    (toggleSeq init ops).length ≤ MAX_ZONES := by
  induction ops generalizing init with
  | nil => exact h
  | cons code rest ih =>
      exact ih _ (toggle_step_length_le init code h)

/-- C4: toggle sequences never grow the selection past 28; toggling a present
code removes it, toggling an absent code below the limit appends it, and a
toggle-to-add at the limit leaves the selection unchanged and raises the
limit-reached signal. -/
theorem handleZoneToggle_spec (prev : List String) (code : String) (ops : List String)
    (hlen : prev.length ≤ MAX_ZONES) :
    (toggleSeq prev ops).length ≤ MAX_ZONES ∧
    (prev.contains code = true → code ∉ (handleZoneToggle prev code).1) ∧
    (prev.contains code = false → prev.length < MAX_ZONES →
      (handleZoneToggle prev code).1 = prev ++ [code] ∧
      (handleZoneToggle prev code).2 = false) ∧
    (prev.contains code = false → prev.length = MAX_ZONES →
      (handleZoneToggle prev code).1 = prev ∧ (handleZoneToggle prev code).2 = true) := by
  refine ⟨toggleSeq_length_le prev ops hlen, ?_, ?_, ?_⟩
  · intro hmem
    unfold handleZoneToggle
    simp only [hmem, if_true]
    simp [List.mem_filter]
  · intro hmem hlt
    unfold handleZoneToggle
    simp only [hmem, Bool.false_eq_true, if_false]
    have : ¬ MAX_ZONES ≤ prev.length := by omega
    simp [this]
  · intro hmem heq
    unfold handleZoneToggle
    simp only [hmem, Bool.false_eq_true, if_false]
    have : MAX_ZONES ≤ prev.length := by omega
    simp [this]

theorem handleZoneToggle_spec_witness :
    "N1" ∉ (handleZoneToggle ["N1", "S1"] "N1").1 :=
  (handleZoneToggle_spec ["N1", "S1"] "N1" [] (by decide)).2.1 (by decide)

/-- C5 (failing input): the documented validZonePattern accepts the code E5
even though E5 is not in the zone catalog (East has only E1-E4), contradicting
the valid-zone list stated beside the pattern in the same documents. -/
theorem validZonePattern_accepts_E5_outside_catalog :
    validZonePattern "E5" = true ∧ zoneCatalog.contains "E5" = false := by decide

/-- C10: for the basic-charge input handler, the empty string stores 0, a
string that parseFloat cannot parse (NaN) leaves the stored value unchanged,
and any other string stores its parsed numeric value; the handler is a total
function, so no input throws. -/
theorem handleChange_spec (val : String) (current : ℚ) :
    (val = "" → handleChange val current = 0) ∧
    (val ≠ "" → parseFloatQ val = none → handleChange val current = current) ∧
    (∀ num : ℚ, val ≠ "" → parseFloatQ val = some num → handleChange val current = num) := by
  refine ⟨?_, ?_, ?_⟩
  · intro h; simp [handleChange, h]
  · intro h hp; simp [handleChange, h, hp]
  · intro num h hp; simp [handleChange, h, hp]

theorem handleChange_spec_witness :
    handleChange "abc" (5 : ℚ) = 5 :=
  (handleChange_spec "abc" 5).2.1 (by decide) (by decide)

/-! ## Rate matrix store, validator and normalizer

The implementation file of the rate matrix store (the useZoneRates hook used
by ZoneRatesEditor) is not among the provided sources; only its callers are.
The operations below are therefore modelled from the specification of the
Rate Matrix Store and the Matrix Validator/Normalizer. -/

/-- A rate matrix: entries keyed by a (fromZone, toZone) pair, each carrying
a price that is either absent (unset) or a decimal value. -/
abbrev RateMatrix := List ((String × String) × Option ℚ)

/-- Modelled from the spec: get(from, to) of the Rate Matrix Store. Returns
the price of the pair, or none ("unset") when the pair has no entry or its
entry carries no price. -/
def getPrice (m : RateMatrix) (f t : String) : Option ℚ :=
  match m.find? (fun e => e.1.1 == f && e.1.2 == t) with
  | some e => e.2
  | none => none

/-- Modelled from the spec: the missing-entry errors of validate, one per
in-scope zone pair that carries no price. -/
def missingErrors (m : RateMatrix) (S : List String) : List (String × String) :=
  (List.product S S).filter (fun p => (getPrice m p.1 p.2).isNone)

/-- Whether an optional price is a negative value. -/
def isNegativePrice (p : Option ℚ) : Bool :=
  match p with
  | some q => decide (q < 0)
  | none => false

/-- Modelled from the spec: the negative-price errors of validate. -/
def negativeErrors (m : RateMatrix) : RateMatrix :=
  m.filter (fun e => isNegativePrice e.2)

/-- Modelled from the spec: the out-of-scope errors of validate, one per
entry referencing a zone outside the active set. -/
def scopeErrors (m : RateMatrix) (S : List String) : RateMatrix :=
  m.filter (fun e => !(S.contains e.1.1 && S.contains e.1.2))

/-- Modelled from the spec: validate(matrix, activeZones) succeeds exactly
when it finds no missing-entry, negative-price or out-of-scope error. -/
def validateMatrix (m : RateMatrix) (S : List String) : Bool :=
  (missingErrors m S).isEmpty && (negativeErrors m).isEmpty && (scopeErrors m S).isEmpty

/-- Half-up rounding to two fractional digits, as an exact rational map. -/
def roundHalfUp2 (x : ℚ) : ℚ := ((⌊x * 100 + 1 / 2⌋ : ℤ) : ℚ) / 100

/-- Modelled from the spec: normalize(matrix) rounds every present price to
exactly two fractional digits with half-up rounding and returns a new matrix
of the same shape (the model is a pure function, so the input is unchanged). -/
def normalizeMatrix (m : RateMatrix) : RateMatrix :=
  m.map (fun e => (e.1, e.2.map roundHalfUp2))

/-- Modelled from the spec: the matrix build step over the active selection
(one entry per (from, to) pair, prices carried over for pairs that remain in
scope, entries of dropped zones discarded, new pairs unset). -/
def initMatrix (S : List String) (old : RateMatrix) : RateMatrix :=
  (List.product S S).map (fun p => (p, getPrice old p.1 p.2))

theorem getPrice_mem (m : RateMatrix) (f t : String) (q : ℚ)
    (h : getPrice m f t = some q) : ∃ e ∈ m, e.2 = some q := by
  unfold getPrice at h
  cases hf : m.find? (fun e => e.1.1 == f && e.1.2 == t) with
  | none => rw [hf] at h; exact absurd h (by simp)
  | some e =>
      rw [hf] at h
      exact ⟨e, List.mem_of_find?_eq_some hf, h⟩

theorem isNegativePrice_iff (p : Option ℚ) :
    isNegativePrice p = true ↔ ∃ q, p = some q ∧ q < 0 := by
  cases p <;> simp [isNegativePrice]

/-- C1: matrix validation succeeds iff every in-scope zone pair carries a
non-negative price and every entry references only active zones with a
non-negative price; equivalently, it fails iff some in-scope pair is unset,
some price is negative, or some entry is out of scope. -/
theorem validateMatrix_spec (m : RateMatrix) (S : List String) :
    validateMatrix m S = true ↔
      ((∀ f ∈ S, ∀ t ∈ S, ∃ q, getPrice m f t = some q ∧ 0 ≤ q) ∧
       (∀ e ∈ m, e.1.1 ∈ S ∧ e.1.2 ∈ S ∧ ∀ q : ℚ, e.2 = some q → 0 ≤ q)) := by
  unfold validateMatrix missingErrors negativeErrors scopeErrors
  simp only [Bool.and_eq_true, List.isEmpty_iff, List.filter_eq_nil_iff]
  constructor
  · rintro ⟨⟨hmiss, hneg⟩, hscope⟩
    constructor
    · intro f hf t ht
      have hp := hmiss (f, t) (List.mem_product.mpr ⟨hf, ht⟩)
      cases hq : getPrice m f t with
      | none => exact absurd (by simp [hq]) hp
      | some q =>
          refine ⟨q, rfl, ?_⟩
          obtain ⟨e, hem, he2⟩ := getPrice_mem m f t q hq
          have hne := hneg e hem
          rw [isNegativePrice_iff] at hne
          push_neg at hne
          exact not_lt.mp (by simpa [he2] using hne q)
    · intro e hem
      have h1 := hscope e hem
      have h2 := hneg e hem
      rw [isNegativePrice_iff] at h2
      push_neg at h2
      have hb : (S.contains e.1.1 && S.contains e.1.2) = true := by
        cases hab : (S.contains e.1.1 && S.contains e.1.2) with
        | true => rfl
        | false => exact absurd (by rw [hab]; rfl) h1
      rw [Bool.and_eq_true] at hb
      refine ⟨by simpa using hb.1, by simpa using hb.2, ?_⟩
      intro q hq
      exact not_lt.mp (by simpa [hq] using h2 q)
  · rintro ⟨hpairs, hentries⟩
    refine ⟨⟨?_, ?_⟩, ?_⟩
    · rintro ⟨f, t⟩ hp
      obtain ⟨hf, ht⟩ := List.mem_product.mp hp
      obtain ⟨q, hq, _⟩ := hpairs f hf t ht
      simp [hq]
    · intro e hem
      cases hn : isNegativePrice e.2 with
      | false => simp
      | true =>
          obtain ⟨q, hq, hlt⟩ := (isNegativePrice_iff e.2).mp hn
          exact absurd ((hentries e hem).2.2 q hq) (not_le.mpr hlt)
    · intro e hem
      obtain ⟨h1, h2, _⟩ := hentries e hem
      simp [h1, h2]

theorem validateMatrix_spec_witness :
    validateMatrix [(("N1", "N1"), some (45 : ℚ))] ["N1"] = true :=
  (validateMatrix_spec [(("N1", "N1"), some (45 : ℚ))] ["N1"]).mpr
    (by
      constructor
      · intro f hf t ht
        simp only [List.mem_singleton] at hf ht
        subst hf; subst ht
        exact ⟨45, by decide, by norm_num⟩
      · intro e he
        simp only [List.mem_singleton] at he
        subst he
        refine ⟨by simp, by simp, ?_⟩
        intro q hq
        simp only [Option.some_inj] at hq
        subst hq
        norm_num)

theorem roundHalfUp2_idem (x : ℚ) :
    roundHalfUp2 (roundHalfUp2 x) = roundHalfUp2 x := by
  unfold roundHalfUp2
  have h1 : ((⌊x * 100 + 1 / 2⌋ : ℚ) / 100) * 100 = ((⌊x * 100 + 1 / 2⌋ : ℤ) : ℚ) :=
    div_mul_cancel₀ _ (by norm_num)
  rw [h1, Int.floor_int_add]
  norm_num

/-- C2: normalization maps every present price through two-digit half-up
rounding (the worked examples 50.005 and 130.753 included), keeps the shape
of the matrix, yields prices with exactly two fractional digits, and is
idempotent; as a pure function it leaves its input unchanged. -/
theorem normalizeMatrix_spec (m : RateMatrix) :
    (normalizeMatrix m).map Prod.fst = m.map Prod.fst ∧
    (∀ e ∈ m, (e.1, e.2.map roundHalfUp2) ∈ normalizeMatrix m) ∧
    (∀ x : ℚ, ∃ n : ℤ, roundHalfUp2 x = (n : ℚ) / 100) ∧
    normalizeMatrix (normalizeMatrix m) = normalizeMatrix m ∧
    roundHalfUp2 (50005 / 1000) = 5001 / 100 ∧
    roundHalfUp2 (130753 / 1000) = 13075 / 100 := by
  refine ⟨?_, ?_, ?_, ?_, ?_, ?_⟩
  · simp [normalizeMatrix, List.map_map, Function.comp]
  · intro e hem
    exact List.mem_map.mpr ⟨e, hem, rfl⟩
  · intro x
    exact ⟨⌊x * 100 + 1 / 2⌋, rfl⟩
  · unfold normalizeMatrix
    rw [List.map_map]
    refine List.map_congr_left ?_
    intro e _
    simp only [Function.comp_apply, Option.map_map]
    refine congrArg (fun p => (e.1, p)) ?_
    cases h : e.2 with
    | none => simp
    | some q => simp [Function.comp, roundHalfUp2_idem]
  · unfold roundHalfUp2
    have hf : ⌊(50005 : ℚ) / 1000 * 100 + 1 / 2⌋ = 5001 := by
      rw [Int.floor_eq_iff]
      constructor <;> norm_num
    rw [hf]
    norm_num
  · unfold roundHalfUp2
    have hf : ⌊(130753 : ℚ) / 1000 * 100 + 1 / 2⌋ = 13075 := by
      rw [Int.floor_eq_iff]
      constructor <;> norm_num
    rw [hf]
    norm_num

theorem normalizeMatrix_spec_witness :
    ((("N1", "N1"), Option.map roundHalfUp2 (some (50005 / 1000 : ℚ))) ∈
      normalizeMatrix [(("N1", "N1"), some (50005 / 1000 : ℚ))]) :=
  (normalizeMatrix_spec [(("N1", "N1"), some (50005 / 1000 : ℚ))]).2.1
    (("N1", "N1"), some (50005 / 1000 : ℚ)) (by simp)

/-- C3: building the matrix over a selection S of at most 28 zones yields
exactly |S|² entries; pairs still in scope keep their previous price (absent
pairs start unset), and every entry's zones lie in S, so entries of dropped
zones are discarded. -/
theorem initMatrix_spec (S : List String) (old : RateMatrix)
    (h : S.length ≤ MAX_ZONES) :
    (initMatrix S old).length = S.length * S.length ∧
    (∀ f ∈ S, ∀ t ∈ S, ((f, t), getPrice old f t) ∈ initMatrix S old) ∧
    (∀ f ∈ S, ∀ t ∈ S, getPrice old f t = none →
      ((f, t), (none : Option ℚ)) ∈ initMatrix S old) ∧
    (∀ e ∈ initMatrix S old, e.1.1 ∈ S ∧ e.1.2 ∈ S ∧
      e.2 = getPrice old e.1.1 e.1.2) := by
  refine ⟨?_, ?_, ?_, ?_⟩
  · unfold initMatrix
    exact (List.length_map _ _).trans (List.length_product S S)
  · intro f hf t ht
    exact List.mem_map.mpr ⟨(f, t), List.mem_product.mpr ⟨hf, ht⟩, rfl⟩
  · intro f hf t ht hnone
    refine List.mem_map.mpr ⟨(f, t), List.mem_product.mpr ⟨hf, ht⟩, ?_⟩
    simp [hnone]
  · intro e hem
    obtain ⟨p, hp, rfl⟩ := List.mem_map.mp hem
    obtain ⟨h1, h2⟩ := List.mem_product.mp (show (p.1, p.2) ∈ List.product S S by
      simpa using hp)
    exact ⟨h1, h2, rfl⟩

theorem initMatrix_spec_witness :
    (initMatrix ["N1", "S1"] []).length =
      (["N1", "S1"] : List String).length * (["N1", "S1"] : List String).length :=
  (initMatrix_spec ["N1", "S1"] [] (by decide)).1

/-! ## Submission flow (AddVendor handleSubmit)

The asynchronous submission handler is embedded as a pure function from the
outcomes of its external calls (section validators, normalization, token
decoding, fetch) to the list of observable events of one run, in program
order. -/

/-- Observable events of one handleSubmit run. -/
inductive SubmitEvent where
  | validateRun (ok : Bool)
  | toastErrorMsg (msg : String)
  | setSubmitting (b : Bool)
  | normalizeRun (ok : Bool)
  | fetchRun (placeholderFile : Bool)
  | toastSuccess
  | clearDraftRun
  | resetBasics
  | resetGeo
  | resetVolumetric
  | resetCharges
  | resetZoneRates
  | clearFile
  | refreshTable
  deriving DecidableEq

/-- Outcome of each form section validator, as consumed by validateAll. -/
structure SectionValidity where
  basics : Bool
  geo : Bool
  volumetric : Bool
  charges : Bool
  zoneRates : Bool
  deriving DecidableEq

/-- Shallow embedding of validateAll in AddVendor: all five section
validators must pass. -/
def validateAll (v : SectionValidity) : Bool :=
  v.basics && v.geo && v.volumetric && v.charges && v.zoneRates

/-- The per-section error toasts surfaced by validateAll, one per failing
section, in source order. -/
def validateAllToasts (v : SectionValidity) : List SubmitEvent :=
  ([(v.basics, "Company information is incomplete or invalid"),
    (v.geo, "Location information is incomplete"),
    (v.volumetric, "Volumetric configuration is invalid"),
    (v.charges, "Charges configuration is invalid"),
    (v.zoneRates, "Zone rate matrix is incomplete or invalid")].filter
      (fun p => !p.1)).map (fun p => SubmitEvent.toastErrorMsg p.2)

/-- Decoded JWT payload fields probed by getCustomerIDFromToken, in probe
order: customer._id, user._id, _id, id, customerId, customerID. A field is
none when the payload does not carry it. -/
structure JwtPayload where
  customerUid : Option String
  userUid : Option String
  rootUid : Option String
  rootId : Option String
  customerIdField : Option String
  customerIDField : Option String
  deriving DecidableEq

/-- The authentication token as seen by getCustomerIDFromToken: absent (no
cookie or storage entry), malformed (fewer than two dot-separated segments;
an undecodable payload behaves like a payload with every field absent), or a
decoded payload. -/
inductive TokenModel where
  | absent
  | malformed
  | withPayload (p : JwtPayload)
  deriving DecidableEq

/-- First JavaScript-truthy candidate of the || chain (undefined and the
empty string are falsy and skipped). -/
def firstTruthy : List (Option String) → String
  | [] => ""
  | some s :: rest => if s = "" then firstTruthy rest else s
  | none :: rest => firstTruthy rest

/-- Shallow embedding of getCustomerIDFromToken: empty for an absent or
malformed token, otherwise the first truthy identifier claim of the payload,
or empty when no candidate is set. -/
def getCustomerIDFromToken : TokenModel → String
  | .absent => ""
  | .malformed => ""
  | .withPayload p =>
      firstTruthy [p.customerUid, p.userUid, p.rootUid, p.rootId,
        p.customerIdField, p.customerIDField]

/-- The inputs that determine the control flow of one handleSubmit run. -/
structure SubmitInput where
  sections : SectionValidity
  normalizeOk : Bool
  token : TokenModel
  filePresent : Bool
  fetchThrows : Bool
  resOk : Bool
  jsonSuccess : Bool
  deriving DecidableEq

/-- Events after the fetch call: a thrown fetch is caught and reported; a
non-ok or non-success response is reported and the flag cleared; a success
response clears the draft, resets every section, clears the file and
refreshes the table. -/
def afterFetch (inp : SubmitInput) : List SubmitEvent :=
  if inp.fetchThrows = true then
    [SubmitEvent.toastErrorMsg "An unexpected error occurred. Please try again."]
  else if (inp.resOk && inp.jsonSuccess) = false then
    [SubmitEvent.toastErrorMsg "Failed to create vendor",
     SubmitEvent.setSubmitting false]
  else
    [SubmitEvent.toastSuccess, SubmitEvent.clearDraftRun,
     SubmitEvent.resetBasics, SubmitEvent.resetGeo,
     SubmitEvent.resetVolumetric, SubmitEvent.resetCharges,
     SubmitEvent.resetZoneRates, SubmitEvent.clearFile,
     SubmitEvent.refreshTable]

/-- Events of the try block of handleSubmit: normalize, build the payload,
check the customer id from the token, then fetch with the uploaded file or a
generated placeholder file. -/
def tryBlock (inp : SubmitInput) : List SubmitEvent :=
  if inp.normalizeOk = false then
    [SubmitEvent.normalizeRun false,
     SubmitEvent.toastErrorMsg "Failed to normalize zone rates",
     SubmitEvent.setSubmitting false]
  else
    [SubmitEvent.normalizeRun true] ++
    (if getCustomerIDFromToken inp.token = "" then
      [SubmitEvent.toastErrorMsg "No customerID found in token",
       SubmitEvent.setSubmitting false]
     else
      [SubmitEvent.fetchRun (!inp.filePresent)] ++ afterFetch inp)

/-- Shallow embedding of handleSubmit: run the validators (with their
toasts), stop unless they all pass, set the in-flight flag, run the try
block, and clear the flag in the finally block on every exit. -/
def handleSubmit (inp : SubmitInput) : List SubmitEvent :=
  [SubmitEvent.validateRun (validateAll inp.sections)] ++
  validateAllToasts inp.sections ++
  (if validateAll inp.sections = true then
    [SubmitEvent.setSubmitting true] ++ tryBlock inp ++
      [SubmitEvent.setSubmitting false]
   else [])

/-- Whether an event is a fetch of the vendor-creation endpoint. -/
def isFetchEvent : SubmitEvent → Bool
  | SubmitEvent.fetchRun _ => true
  | _ => false

/-- Whether an event is a user-facing error toast. -/
def isErrorToast : SubmitEvent → Bool
  | SubmitEvent.toastErrorMsg _ => true
  | _ => false

theorem mem_validateAllToasts (v : SectionValidity) (e : SubmitEvent)
    (h : e ∈ validateAllToasts v) : ∃ m, e = SubmitEvent.toastErrorMsg m := by
  unfold validateAllToasts at h
  obtain ⟨p, _, hp⟩ := List.mem_map.mp h
  exact ⟨p.2, hp.symm⟩

theorem fetchRun_not_mem_toasts (v : SectionValidity) (b : Bool) :
    SubmitEvent.fetchRun b ∉ validateAllToasts v := by
  intro h
  obtain ⟨m, hm⟩ := mem_validateAllToasts _ _ h
  exact SubmitEvent.noConfusion hm

theorem not_fetch_mem_afterFetch (inp : SubmitInput) (b : Bool) :
    SubmitEvent.fetchRun b ∉ afterFetch inp := by
  unfold afterFetch
  split
  · simp
  · split
    · simp
    · simp

theorem validateAll_eq_true_iff (v : SectionValidity) :
    validateAll v = true ↔
      v.basics = true ∧ v.geo = true ∧ v.volumetric = true ∧
      v.charges = true ∧ v.zoneRates = true := by
  unfold validateAll
  simp [Bool.and_eq_true, and_assoc]

theorem validateAllToasts_eq_nil (v : SectionValidity)
    (h : validateAll v = true) : validateAllToasts v = [] := by
  obtain ⟨h1, h2, h3, h4, h5⟩ := (validateAll_eq_true_iff v).mp h
  simp [validateAllToasts, h1, h2, h3, h4, h5]

/-- C6: normalization of the zone rates runs only after full validation has
passed: if any section validator fails, handleSubmit returns before
normalizeAndValidate is invoked. -/
theorem handleSubmit_no_normalize_on_invalid (inp : SubmitInput)
    (hfail : inp.sections.basics = false ∨ inp.sections.geo = false ∨
      inp.sections.volumetric = false ∨ inp.sections.charges = false ∨
      inp.sections.zoneRates = false) :
    ∀ b : Bool, SubmitEvent.normalizeRun b ∉ handleSubmit inp := by
  intro b hmem
  have hv : validateAll inp.sections = false := by
    unfold validateAll
    rcases hfail with h | h | h | h | h <;> simp [h]
  unfold handleSubmit at hmem
  rw [hv] at hmem
  simp only [Bool.false_eq_true, if_false, List.append_nil, List.mem_append,
    List.mem_singleton] at hmem
  rcases hmem with h | h
  · exact SubmitEvent.noConfusion h
  · obtain ⟨m, hm⟩ := mem_validateAllToasts _ _ h
    exact SubmitEvent.noConfusion hm

theorem handleSubmit_no_normalize_on_invalid_witness :
    SubmitEvent.normalizeRun true ∉
      handleSubmit ⟨⟨false, true, true, true, true⟩, true,
        TokenModel.absent, true, false, true, true⟩ :=
  handleSubmit_no_normalize_on_invalid
    ⟨⟨false, true, true, true, true⟩, true, TokenModel.absent, true, false,
      true, true⟩ (Or.inl rfl) true

/-! ## In-flight state machine for the submit button -/

/-- UI submission state: the isSubmitting flag and the number of in-flight
submission requests. -/
structure UIState where
  isSubmitting : Bool
  inFlight : Nat
  deriving DecidableEq

/-- Transition relation of the submission UI. The Save button is rendered
with disabled set to isSubmitting, so a click happens only while the flag is
clear; a click either stops before the fetch (validation failure or an early
error path, which clears the flag again synchronously before yielding) or
reaches the fetch with the flag set just before the request; a response,
including a thrown one, ends the in-flight request and the finally block
clears the flag. -/
inductive SubmitStep : UIState → UIState → Prop where
  | clickNoFetch (s : UIState) (h : s.isSubmitting = false) : SubmitStep s s
  | clickFetch (s : UIState) (h : s.isSubmitting = false) :
      SubmitStep s ⟨true, s.inFlight + 1⟩
  | response (s : UIState) (h : 0 < s.inFlight) :
      SubmitStep s ⟨false, s.inFlight - 1⟩

/-- States reachable from the initial state (flag clear, nothing in flight). -/
inductive ReachableUI : UIState → Prop where
  | init : ReachableUI ⟨false, 0⟩
  | step (s t : UIState) (hs : ReachableUI s) (hst : SubmitStep s t) :
      ReachableUI t

/-- C7: in every reachable UI state at most one submission is in flight, and
whenever a request is in flight the in-flight flag is set (it was set before
the request and blocks any further submission start until the response). -/
theorem submit_single_flight (s : UIState) (hs : ReachableUI s) :
    s.inFlight ≤ 1 ∧ (s.inFlight = 1 → s.isSubmitting = true) := by
  induction hs with
  | init => exact ⟨Nat.zero_le 1, fun h => absurd h (by simp)⟩
  | step s t hs hst ih =>
      cases hst with
      | clickNoFetch h => exact ih
      | clickFetch h =>
          have h0 : s.inFlight = 0 := by
            rcases Nat.eq_or_lt_of_le ih.1 with h1 | h1
            · exact absurd (ih.2 h1) (by simp [h])
            · omega
          constructor
          · show s.inFlight + 1 ≤ 1
            omega
          · intro _; rfl
      | response h =>
          have hle := ih.1
          constructor
          · show s.inFlight - 1 ≤ 1
            omega
          · intro h1
            have h2 : s.inFlight - 1 = 1 := h1
            omega

theorem submit_single_flight_witness :
    (⟨true, 1⟩ : UIState).inFlight ≤ 1 ∧
      ((⟨true, 1⟩ : UIState).inFlight = 1 →
        (⟨true, 1⟩ : UIState).isSubmitting = true) :=
  submit_single_flight ⟨true, 1⟩
    (ReachableUI.step ⟨false, 0⟩ ⟨true, 1⟩ ReachableUI.init
      (SubmitStep.clickFetch ⟨false, 0⟩ rfl))

/-- C8: when the run reaches the network call, a success response clears the
draft store, resets every form section and clears the file, while either form
of transport error — a thrown fetch (network failure) or a non-ok or
non-success response — clears the in-flight flag so the user may retry,
leaves the local draft state untouched (no draft clearing, no section reset),
and no run performs an automatic retry (at most one fetch per run). -/
theorem handleSubmit_outcome_spec (inp : SubmitInput)
    (hv : validateAll inp.sections = true)
    (hn : inp.normalizeOk = true)
    (hid : getCustomerIDFromToken inp.token ≠ "") :
    (inp.fetchThrows = false → (inp.resOk && inp.jsonSuccess) = true →
      SubmitEvent.clearDraftRun ∈ handleSubmit inp ∧
      SubmitEvent.resetBasics ∈ handleSubmit inp ∧
      SubmitEvent.resetGeo ∈ handleSubmit inp ∧
      SubmitEvent.resetVolumetric ∈ handleSubmit inp ∧
      SubmitEvent.resetCharges ∈ handleSubmit inp ∧
      SubmitEvent.resetZoneRates ∈ handleSubmit inp ∧
      SubmitEvent.clearFile ∈ handleSubmit inp) ∧
    (inp.fetchThrows = false → (inp.resOk && inp.jsonSuccess) = false →
      SubmitEvent.setSubmitting false ∈ handleSubmit inp ∧
      SubmitEvent.clearDraftRun ∉ handleSubmit inp ∧
      SubmitEvent.resetBasics ∉ handleSubmit inp ∧
      SubmitEvent.resetGeo ∉ handleSubmit inp ∧
      SubmitEvent.resetVolumetric ∉ handleSubmit inp ∧
      SubmitEvent.resetCharges ∉ handleSubmit inp ∧
      SubmitEvent.resetZoneRates ∉ handleSubmit inp ∧
      SubmitEvent.clearFile ∉ handleSubmit inp) ∧
    (inp.fetchThrows = true →
      SubmitEvent.setSubmitting false ∈ handleSubmit inp ∧
      SubmitEvent.clearDraftRun ∉ handleSubmit inp ∧
      SubmitEvent.resetBasics ∉ handleSubmit inp ∧
      SubmitEvent.resetGeo ∉ handleSubmit inp ∧
      SubmitEvent.resetVolumetric ∉ handleSubmit inp ∧
      SubmitEvent.resetCharges ∉ handleSubmit inp ∧
      SubmitEvent.resetZoneRates ∉ handleSubmit inp ∧
      SubmitEvent.clearFile ∉ handleSubmit inp) ∧
    (handleSubmit inp).countP isFetchEvent ≤ 1 := by
  have htoasts := validateAllToasts_eq_nil inp.sections hv
  refine ⟨?_, ?_, ?_, ?_⟩
  · intro hthrow hres
    simp [handleSubmit, tryBlock, afterFetch, hv, hn, hid, hthrow, hres, htoasts]
  · intro hthrow hres
    simp [handleSubmit, tryBlock, afterFetch, hv, hn, hid, hthrow, hres, htoasts]
  · intro hthrow
    simp [handleSubmit, tryBlock, afterFetch, hv, hn, hid, hthrow, htoasts]
  · cases hthrow : inp.fetchThrows with
    | true =>
        simp [handleSubmit, tryBlock, afterFetch, hv, hn, hid, hthrow,
          htoasts, List.countP_append, List.countP_cons, isFetchEvent]
    | false =>
        cases hres : (inp.resOk && inp.jsonSuccess) with
        | false =>
            simp [handleSubmit, tryBlock, afterFetch, hv, hn, hid, hthrow, hres,
              htoasts, List.countP_append, List.countP_cons, isFetchEvent]
        | true =>
            simp [handleSubmit, tryBlock, afterFetch, hv, hn, hid, hthrow, hres,
              htoasts, List.countP_append, List.countP_cons, isFetchEvent]

theorem handleSubmit_outcome_spec_witness :
    SubmitEvent.clearDraftRun ∈
      handleSubmit ⟨⟨true, true, true, true, true⟩, true,
        TokenModel.withPayload ⟨some "id1", none, none, none, none, none⟩,
        true, false, true, true⟩ :=
  ((handleSubmit_outcome_spec
      ⟨⟨true, true, true, true, true⟩, true,
        TokenModel.withPayload ⟨some "id1", none, none, none, none, none⟩,
        true, false, true, true⟩
      (by decide) (by decide) (by decide)).1 (by decide) (by decide)).1

/-- C9: whenever no account identifier can be extracted from the token, the
run never reaches the network call on any path; on the path that reaches the
identifier check a single user-facing error toast is surfaced and the
in-flight flag is cleared; and every fetch that is sent carries a file, the
uploaded price chart when present and otherwise the generated placeholder. -/
theorem handleSubmit_auth_file_spec (inp : SubmitInput) :
    (getCustomerIDFromToken inp.token = "" →
      ∀ b : Bool, SubmitEvent.fetchRun b ∉ handleSubmit inp) ∧
    (getCustomerIDFromToken inp.token = "" →
      validateAll inp.sections = true → inp.normalizeOk = true →
      (handleSubmit inp).countP isErrorToast = 1 ∧
      SubmitEvent.setSubmitting false ∈ handleSubmit inp) ∧
    (∀ b : Bool, SubmitEvent.fetchRun b ∈ handleSubmit inp →
      b = !inp.filePresent) := by
  refine ⟨?_, ?_, ?_⟩
  · intro hid b hmem
    have hnt := fetchRun_not_mem_toasts inp.sections b
    by_cases hv : validateAll inp.sections = true
    · by_cases hn : inp.normalizeOk = false
      · simp [handleSubmit, tryBlock, hv, hn, hnt] at hmem
      · simp [handleSubmit, tryBlock, hv, hn, hid, hnt] at hmem
    · simp [handleSubmit, hv, hnt] at hmem
  · intro hid hv hn
    have htoasts := validateAllToasts_eq_nil inp.sections hv
    constructor
    · simp [handleSubmit, tryBlock, hv, hn, hid, htoasts,
        List.countP_append, List.countP_cons, isErrorToast]
    · simp [handleSubmit, tryBlock, hv, hn, hid, htoasts]
  · intro b hmem
    have hna := not_fetch_mem_afterFetch inp b
    have hnt := fetchRun_not_mem_toasts inp.sections b
    by_cases hv : validateAll inp.sections = true
    · by_cases hn : inp.normalizeOk = false
      · simp [handleSubmit, tryBlock, hv, hn, hnt] at hmem
      · by_cases hid : getCustomerIDFromToken inp.token = ""
        · simp [handleSubmit, tryBlock, hv, hn, hid, hnt] at hmem
        · simp [handleSubmit, tryBlock, hv, hn, hid, hnt, hna] at hmem
          exact hmem
    · simp [handleSubmit, hv, hnt] at hmem

theorem handleSubmit_auth_file_spec_witness :
    SubmitEvent.fetchRun true ∉
      handleSubmit ⟨⟨true, true, true, true, true⟩, true,
        TokenModel.absent, true, false, true, true⟩ :=
  (handleSubmit_auth_file_spec
      ⟨⟨true, true, true, true, true⟩, true, TokenModel.absent, true, false,
        true, true⟩).1 (by decide) true

end Dhamaka
